import Mathlib

/-!
A verification development for a Rust implementation of the card game
Spades.  The Rust sources are shallowly embedded: each Lean definition
mirrors one Rust item (`src/cards.rs`, `src/scoring.rs`, `src/lib.rs`,
`src/game_manager.rs`, `src/matchmaking.rs`), with machine integers
modelled as `Int`/`Nat` (u64 saturating subtraction is `Nat` subtraction)
and in-place mutation modelled by explicit state passing.
-/

set_option autoImplicit false

namespace Spades

/-- Embeds `enum Suit` from `src/cards.rs` (discriminants 0..4). -/
inductive Suit where
  | Blank
  | Club
  | Diamond
  | Heart
  | Spade
deriving DecidableEq, Repr

/-- The numeric discriminant of a suit, as in the Rust enum. -/
def Suit.val : Suit → Nat
  | .Blank => 0
  | .Club => 1
  | .Diamond => 2
  | .Heart => 3
  | .Spade => 4

/-- Embeds `enum Rank` from `src/cards.rs` (discriminants 0, 2..14). -/
inductive Rank where
  | Blank
  | Two
  | Three
  | Four
  | Five
  | Six
  | Seven
  | Eight
  | Nine
  | Ten
  | Jack
  | Queen
  | King
  | Ace
deriving DecidableEq, Repr

/-- The numeric discriminant of a rank, as in the Rust enum. -/
def Rank.val : Rank → Nat
  | .Blank => 0
  | .Two => 2
  | .Three => 3
  | .Four => 4
  | .Five => 5
  | .Six => 6
  | .Seven => 7
  | .Eight => 8
  | .Nine => 9
  | .Ten => 10
  | .Jack => 11
  | .Queen => 12
  | .King => 13
  | .Ace => 14

/-- Embeds `struct Card` from `src/cards.rs`. -/
structure Card where
  suit : Suit
  rank : Rank
deriving DecidableEq, Repr

/-- The comparison key used by `impl Ord for Card`: `suit * 15 + rank`. -/
def cardKey (c : Card) : Nat := c.suit.val * 15 + c.rank.val

/-- The all-blank card used to fill fresh trick pots (`new_pot`). -/
def blankCard : Card := { suit := .Blank, rank := .Blank }

/-- A trick pot: an array of four cards indexed by seat (`[Card; 4]`). -/
abbrev Pot := Fin 4 → Card

/-- Embeds `new_pot` from `src/cards.rs`: four blank cards. -/
def newPot : Pot := fun _ => blankCard

/-- One iteration of the `for i in 0..4` loop inside `get_trick_winner`:
the state is the pair (winning index, current max card). -/
def trickFold (others : Pot) (st : Fin 4 × Card) (i : Fin 4) : Fin 4 × Card :=
  let other := others i
  if other.suit = st.2.suit then
    if st.2.rank.val < other.rank.val then (i, other) else st
  else if other.suit = Suit.Spade then (i, other)
  else st

/-- Embeds `get_trick_winner` from `src/cards.rs`: starting from the card
at `index`, scan seats 0..3 in order, replacing the max by a same-suit
card of higher rank or by any spade when the max is not of spade suit. -/
def getTrickWinner (index : Fin 4) (others : Pot) : Fin 4 :=
  ((List.finRange 4).foldl (trickFold others) (index, others index)).1

/-- The loop invariant of `get_trick_winner` after scanning the seats in
`l`: the tracked card belongs to the tracked seat; while no spade has
been seen (and the start card is no spade) the max is the best card so
far in the suit of the start card, and otherwise it is the best spade
seen so far. -/
def TrickInv (index : Fin 4) (others : Pot) (l : List (Fin 4)) (st : Fin 4 × Card) : Prop :=
  st.2 = others st.1 ∧
  (((others index).suit = Suit.Spade ∨ ∃ i ∈ l, (others i).suit = Suit.Spade) →
    (st.2.suit = Suit.Spade ∧
      (∀ i ∈ l, (others i).suit = Suit.Spade → (others i).rank.val ≤ st.2.rank.val) ∧
      ((others index).suit = Suit.Spade → (others index).rank.val ≤ st.2.rank.val))) ∧
  ((¬ ((others index).suit = Suit.Spade ∨ ∃ i ∈ l, (others i).suit = Suit.Spade)) →
    (st.2.suit = (others index).suit ∧
      (∀ i ∈ l, (others i).suit = (others index).suit → (others i).rank.val ≤ st.2.rank.val) ∧
      (others index).rank.val ≤ st.2.rank.val))

lemma trickInv_nil (index : Fin 4) (others : Pot) :
    TrickInv index others [] (index, others index) := by
  refine ⟨rfl, ?_, ?_⟩
  · rintro (h | ⟨i, hi, _⟩)
    · exact ⟨h, by simp, fun _ => le_refl _⟩
    · simp at hi
  · intro h
    exact ⟨rfl, by simp, le_refl _⟩

lemma trickFold_same_gt (others : Pot) (st : Fin 4 × Card) (i : Fin 4)
    (h1 : (others i).suit = st.2.suit) (h2 : st.2.rank.val < (others i).rank.val) :
    trickFold others st i = (i, others i) := by
  simp [trickFold, h1, h2]

lemma trickFold_same_le (others : Pot) (st : Fin 4 × Card) (i : Fin 4)
    (h1 : (others i).suit = st.2.suit) (h2 : ¬ st.2.rank.val < (others i).rank.val) :
    trickFold others st i = st := by
  simp [trickFold, h1, h2]

lemma trickFold_spade (others : Pot) (st : Fin 4 × Card) (i : Fin 4)
    (h1 : ¬ (others i).suit = st.2.suit) (h2 : (others i).suit = Suit.Spade) :
    trickFold others st i = (i, others i) := by
  have h1b : ¬ Suit.Spade = st.2.suit := h2 ▸ h1
  simp [trickFold, h1, h2, h1b]

lemma trickFold_other (others : Pot) (st : Fin 4 × Card) (i : Fin 4)
    (h1 : ¬ (others i).suit = st.2.suit) (h2 : ¬ (others i).suit = Suit.Spade) :
    trickFold others st i = st := by
  simp [trickFold, h1, h2]

lemma spadeSeen_mono (index : Fin 4) (others : Pot) (l : List (Fin 4)) (i : Fin 4)
    (h : (others index).suit = Suit.Spade ∨ ∃ j ∈ l, (others j).suit = Suit.Spade) :
    (others index).suit = Suit.Spade ∨ ∃ j ∈ l ++ [i], (others j).suit = Suit.Spade := by
  rcases h with h | ⟨j, hj, hjs⟩
  · exact Or.inl h
  · exact Or.inr ⟨j, List.mem_append.2 (Or.inl hj), hjs⟩

lemma trickInv_step (index : Fin 4) (others : Pot) (l : List (Fin 4))
    (st : Fin 4 × Card) (i : Fin 4) (h : TrickInv index others l st) :
    TrickInv index others (l ++ [i]) (trickFold others st i) := by
  obtain ⟨hcard, hA, hB⟩ := h
  by_cases hsp : (others index).suit = Suit.Spade ∨ ∃ j ∈ l, (others j).suit = Suit.Spade
  · -- already in the spade regime: the max card is a spade
    obtain ⟨hsuit, hall, hidx⟩ := hA hsp
    have hmono := spadeSeen_mono index others l i hsp
    by_cases h1 : (others i).suit = st.2.suit
    · by_cases h2 : st.2.rank.val < (others i).rank.val
      · rw [trickFold_same_gt others st i h1 h2]
        refine ⟨rfl, fun _ => ⟨h1.trans hsuit, ?_, ?_⟩, fun hn => absurd hmono hn⟩
        · intro j hj hjs
          rcases List.mem_append.1 hj with hj | hj
          · exact le_trans (hall j hj hjs) (le_of_lt h2)
          · rw [List.mem_singleton.1 hj]
        · intro hix
          exact le_trans (hidx hix) (le_of_lt h2)
      · rw [trickFold_same_le others st i h1 h2]
        refine ⟨hcard, fun _ => ⟨hsuit, ?_, hidx⟩, fun hn => absurd hmono hn⟩
        intro j hj hjs
        rcases List.mem_append.1 hj with hj | hj
        · exact hall j hj hjs
        · rw [List.mem_singleton.1 hj]; omega
    · by_cases h2 : (others i).suit = Suit.Spade
      · exact absurd (h2.trans hsuit.symm) h1
      · rw [trickFold_other others st i h1 h2]
        refine ⟨hcard, fun _ => ⟨hsuit, ?_, hidx⟩, fun hn => absurd hmono hn⟩
        intro j hj hjs
        rcases List.mem_append.1 hj with hj | hj
        · exact hall j hj hjs
        · rw [List.mem_singleton.1 hj] at hjs; exact absurd hjs h2
  · -- no spade seen yet: the max card is in the suit of the start card
    obtain ⟨hsuit, hall, hidx⟩ := hB hsp
    push_neg at hsp
    obtain ⟨hlead, hnosp⟩ := hsp
    by_cases h1 : (others i).suit = st.2.suit
    · have hins : ¬ (others i).suit = Suit.Spade := by
        rw [h1, hsuit]; exact hlead
      have hnosp2 : ¬ ((others index).suit = Suit.Spade ∨
          ∃ j ∈ l ++ [i], (others j).suit = Suit.Spade) := by
        rintro (hc | ⟨j, hj, hjs⟩)
        · exact hlead hc
        · rcases List.mem_append.1 hj with hj | hj
          · exact hnosp j hj hjs
          · rw [List.mem_singleton.1 hj] at hjs; exact hins hjs
      by_cases h2 : st.2.rank.val < (others i).rank.val
      · rw [trickFold_same_gt others st i h1 h2]
        refine ⟨rfl, fun hc => absurd hc hnosp2, fun _ => ⟨h1.trans hsuit, ?_, ?_⟩⟩
        · intro j hj hjs
          rcases List.mem_append.1 hj with hj | hj
          · exact le_trans (hall j hj hjs) (le_of_lt h2)
          · rw [List.mem_singleton.1 hj]
        · exact le_trans hidx (le_of_lt h2)
      · rw [trickFold_same_le others st i h1 h2]
        refine ⟨hcard, fun hc => absurd hc hnosp2, fun _ => ⟨hsuit, ?_, hidx⟩⟩
        intro j hj hjs
        rcases List.mem_append.1 hj with hj | hj
        · exact hall j hj hjs
        · rw [List.mem_singleton.1 hj]; omega
    · by_cases h2 : (others i).suit = Suit.Spade
      · -- the first spade seen: switch to the spade regime
        rw [trickFold_spade others st i h1 h2]
        refine ⟨rfl, fun _ => ⟨h2, ?_, fun hc => absurd hc hlead⟩, ?_⟩
        · intro j hj hjs
          rcases List.mem_append.1 hj with hj | hj
          · exact absurd hjs (hnosp j hj)
          · rw [List.mem_singleton.1 hj]
        · intro hn
          exact absurd (Or.inr ⟨i, List.mem_append.2 (Or.inr (by simp)), h2⟩) hn
      · have hnosp2 : ¬ ((others index).suit = Suit.Spade ∨
            ∃ j ∈ l ++ [i], (others j).suit = Suit.Spade) := by
          rintro (hc | ⟨j, hj, hjs⟩)
          · exact hlead hc
          · rcases List.mem_append.1 hj with hj | hj
            · exact hnosp j hj hjs
            · rw [List.mem_singleton.1 hj] at hjs; exact h2 hjs
        rw [trickFold_other others st i h1 h2]
        refine ⟨hcard, fun hc => absurd hc hnosp2, fun _ => ⟨hsuit, ?_, hidx⟩⟩
        intro j hj hjs
        rcases List.mem_append.1 hj with hj | hj
        · exact hall j hj hjs
        · rw [List.mem_singleton.1 hj] at hjs
          rw [← hsuit] at hjs
          exact absurd hjs h1

lemma trickInv_foldl (index : Fin 4) (others : Pot) :
    ∀ l : List (Fin 4),
      TrickInv index others l
        (l.foldl (trickFold others) (index, others index)) := by
  intro l
  induction l using List.reverseRecOn with
  | nil => exact trickInv_nil index others
  | append_singleton xs x ih =>
      rw [List.foldl_append]
      exact trickInv_step index others xs _ x ih

lemma Rank.val_injective : Function.Injective Rank.val := by
  intro a b h
  cases a <;> cases b <;> first | rfl | (exfalso; simp [Rank.val] at h)

/-- C3: for four cards (one per seat) and a starting seat,
`get_trick_winner` returns the seat holding the highest-ranked card of
the suit of the card at the starting index when no spade is among the
four cards, and the seat holding the highest-ranked spade when at least
one spade is present; with pairwise distinct cards that seat is unique,
so the scan order does not matter. -/
theorem C3_get_trick_winner (index : Fin 4) (others : Pot)
    (hinj : Function.Injective others) :
    ((∀ i, (others i).suit ≠ Suit.Spade) →
      ((others (getTrickWinner index others)).suit = (others index).suit ∧
       (∀ i, (others i).suit = (others index).suit →
          (others i).rank.val ≤ (others (getTrickWinner index others)).rank.val) ∧
       (∀ i, (others i).suit = (others index).suit →
          (others (getTrickWinner index others)).rank.val ≤ (others i).rank.val →
          i = getTrickWinner index others))) ∧
    ((∃ i, (others i).suit = Suit.Spade) →
      ((others (getTrickWinner index others)).suit = Suit.Spade ∧
       (∀ i, (others i).suit = Suit.Spade →
          (others i).rank.val ≤ (others (getTrickWinner index others)).rank.val) ∧
       (∀ i, (others i).suit = Suit.Spade →
          (others (getTrickWinner index others)).rank.val ≤ (others i).rank.val →
          i = getTrickWinner index others))) := by
  have hinv := trickInv_foldl index others (List.finRange 4)
  set st := (List.finRange 4).foldl (trickFold others) (index, others index) with hst
  obtain ⟨hcard, hA, hB⟩ := hinv
  have hwin : getTrickWinner index others = st.1 := rfl
  constructor
  · intro hnone
    have hcond : ¬ ((others index).suit = Suit.Spade ∨
        ∃ i ∈ List.finRange 4, (others i).suit = Suit.Spade) := by
      rintro (hc | ⟨i, _, hi⟩)
      · exact hnone index hc
      · exact hnone i hi
    obtain ⟨hsuit, hall, _⟩ := hB hcond
    rw [hwin, ← hcard]
    have hmax : ∀ i, (others i).suit = (others index).suit →
        (others i).rank.val ≤ st.2.rank.val :=
      fun i hi => hall i (List.mem_finRange i) hi
    refine ⟨hsuit, hmax, ?_⟩
    intro i hi hle
    have heq : (others i).rank = st.2.rank :=
      Rank.val_injective (le_antisymm (hmax i hi) hle)
    have hceq : others i = others st.1 := by
      rw [← hcard]
      cases hoi : others i
      cases hst2 : st.2
      simp only [hoi] at hi heq
      simp only [hst2] at hsuit heq
      simp [hi, hsuit, heq]
    exact hinj (hceq.trans hcard.symm ▸ hceq)
  · intro hsome
    have hcond : (others index).suit = Suit.Spade ∨
        ∃ i ∈ List.finRange 4, (others i).suit = Suit.Spade := by
      obtain ⟨i, hi⟩ := hsome
      exact Or.inr ⟨i, List.mem_finRange i, hi⟩
    obtain ⟨hsuit, hall, _⟩ := hA hcond
    rw [hwin, ← hcard]
    have hmax : ∀ i, (others i).suit = Suit.Spade →
        (others i).rank.val ≤ st.2.rank.val :=
      fun i hi => hall i (List.mem_finRange i) hi
    refine ⟨hsuit, hmax, ?_⟩
    intro i hi hle
    have heq : (others i).rank = st.2.rank :=
      Rank.val_injective (le_antisymm (hmax i hi) hle)
    have hceq : others i = others st.1 := by
      rw [← hcard]
      cases hoi : others i
      cases hst2 : st.2
      simp only [hoi] at hi heq
      simp only [hst2] at hsuit heq
      simp [hi, hsuit, heq]
    exact hinj hceq

/-- A concrete four-card trick used to instantiate C3. -/
def examplePot : Pot :=
  ![{ suit := .Heart, rank := .Two }, { suit := .Spade, rank := .Five },
    { suit := .Heart, rank := .Ace }, { suit := .Club, rank := .King }]

/-- Witness for C3 at a concrete trick containing one spade. -/
theorem C3_get_trick_winner_witness :
    (examplePot (getTrickWinner 0 examplePot)).suit = Suit.Spade ∧
    (∀ i, (examplePot i).suit = Suit.Spade →
      (examplePot i).rank.val ≤ (examplePot (getTrickWinner 0 examplePot)).rank.val) := by
  have h := (C3_get_trick_winner 0 examplePot (by decide)).2 (by decide)
  exact ⟨h.1, h.2.1⟩

/-! ## Scoring engine (`src/scoring.rs`) -/

/-- Replaces the last element of a list by `f` of it, as Rust
`vec.last_mut().unwrap()` followed by an assignment (empty vectors do
not occur on any reachable path). -/
def modifyLast {A : Type*} (f : A → A) (l : List A) : List A :=
  match l.getLast? with
  | none => l
  | some x => l.dropLast ++ [f x]

/-- In-place `arr[t] += 1` on an `[i32; 13]` array modelled as a list. -/
def incTrickAt (l : List Int) (t : Nat) : List Int := l.set t (l.getD t 0 + 1)

/-- Embeds `struct GameConfig` from `src/scoring.rs`. -/
structure GameConfig where
  max_points : Int
deriving DecidableEq, Repr

/-- Embeds `struct TeamState` from `src/scoring.rs`. -/
structure TeamState where
  current_round_tricks_won : List Int
  bags : Int
  cumulative_points : Int
deriving DecidableEq, Repr

/-- Embeds `TeamState::new`. -/
def TeamState.new : TeamState :=
  { current_round_tricks_won := List.replicate 13 0, bags := 0, cumulative_points := 0 }

/-- Embeds `TeamState::calculate_round_totals` from `src/scoring.rs`:
contract scoring, then the bag penalty, then the two nil adjustments,
in the order the Rust statements execute. -/
def TeamState.calculate_round_totals (ts : TeamState) (first_bet : Int) (first_nil : Bool)
    (second_bet : Int) (second_nil : Bool) : TeamState :=
  let team_tricks : Int := ts.current_round_tricks_won.sum
  let team_bets := first_bet + second_bet
  let ts1 :=
    if team_bets ≤ team_tricks then
      { ts with bags := ts.bags + (team_tricks - team_bets),
                cumulative_points := ts.cumulative_points + (team_tricks - team_bets) + team_bets * 10 }
    else
      { ts with cumulative_points := ts.cumulative_points - team_bets * 10 }
  let ts2 :=
    if 10 ≤ ts1.bags then
      { ts1 with bags := ts1.bags - 10, cumulative_points := ts1.cumulative_points - 100 }
    else ts1
  let ts3 :=
    if first_bet = 0 then
      (if first_nil then { ts2 with cumulative_points := ts2.cumulative_points - 100 }
       else { ts2 with cumulative_points := ts2.cumulative_points + 100 })
    else ts2
  if second_bet = 0 then
    (if second_nil then { ts3 with cumulative_points := ts3.cumulative_points - 100 }
     else { ts3 with cumulative_points := ts3.cumulative_points + 100 })
  else ts3

/-- Embeds `struct Scoring` from `src/scoring.rs`. -/
structure Scoring where
  config : GameConfig
  team_a : TeamState
  team_b : TeamState
  in_betting_stage : Bool
  bets_placed : List (Fin 4 → Int)
  is_over : Bool
  round : Nat
  trick : Nat
  nil_check : Fin 4 → Bool
  player_tricks_won : Fin 4 → Int
deriving DecidableEq

/-- Embeds `Scoring::new`. -/
def Scoring.new (max_points : Int) : Scoring :=
  { config := { max_points := max_points },
    team_a := TeamState.new,
    team_b := TeamState.new,
    in_betting_stage := true,
    bets_placed := [fun _ => 0],
    is_over := false,
    round := 0,
    trick := 0,
    nil_check := fun _ => false,
    player_tricks_won := fun _ => 0 }

/-- Embeds `Scoring::add_bet`: write the bet into the current seat slot
of the last bet array. -/
def Scoring.add_bet (s : Scoring) (current_player_index : Fin 4) (bet : Int) : Scoring :=
  { s with bets_placed := modifyLast (fun a => Function.update a current_player_index bet) s.bets_placed }

/-- Embeds `Scoring::bet`: close the betting stage, reset the trick
index and push a fresh bet array. -/
def Scoring.bet (s : Scoring) : Scoring :=
  { s with trick := 0,
           in_betting_stage := false,
           bets_placed := s.bets_placed ++ [fun _ => 0] }

/-- Embeds `Scoring::trick` from `src/scoring.rs` (named `resolveTrick`
here because `trick` is already the field name): mark the winner, and on
the 13th trick compute both round totals, reset the per-round state,
run the game-over check and advance the round. -/
def Scoring.resolveTrick (s : Scoring) (starting_player_index : Fin 4) (cards : Pot) :
    Fin 4 × Scoring :=
  let winner := getTrickWinner starting_player_index cards
  let s1 := { s with nil_check := Function.update s.nil_check winner true,
                     player_tricks_won := Function.update s.player_tricks_won winner
                       (s.player_tricks_won winner + 1) }
  let s2 :=
    if winner.val % 2 = 0 then
      { s1 with team_a := { s1.team_a with
          current_round_tricks_won := incTrickAt s1.team_a.current_round_tricks_won s1.trick } }
    else
      { s1 with team_b := { s1.team_b with
          current_round_tricks_won := incTrickAt s1.team_b.current_round_tricks_won s1.trick } }
  if s2.trick = 12 then
    let bets := s2.bets_placed.getD s2.round (fun _ => 0)
    let ta := s2.team_a.calculate_round_totals (bets 0) (s2.nil_check 0) (bets 2) (s2.nil_check 2)
    let tb := s2.team_b.calculate_round_totals (bets 1) (s2.nil_check 1) (bets 3) (s2.nil_check 3)
    let a_reached := s2.config.max_points ≤ ta.cumulative_points
    let b_reached := s2.config.max_points ≤ tb.cumulative_points
    let is_over2 :=
      if a_reached ∨ b_reached then
        (if a_reached ∧ b_reached then
          (if ta.cumulative_points ≠ tb.cumulative_points then true else s2.is_over)
         else true)
      else s2.is_over
    (winner,
      { s2 with
          team_a := { ta with current_round_tricks_won := List.replicate 13 0 },
          team_b := { tb with current_round_tricks_won := List.replicate 13 0 },
          nil_check := fun _ => false,
          player_tricks_won := fun _ => 0,
          in_betting_stage := true,
          is_over := is_over2,
          round := s2.round + 1 })
  else
    (winner, { s2 with trick := s2.trick + 1 })

/-- C1: at the end of a round, with B the partnership bid sum and T its
trick count, a made contract earns B*10 + (T - B) points and T - B
bags, and a missed contract loses B*10 points with bags unchanged.
The hypotheses restrict to rounds where neither partner bid nil and the
bag penalty does not trigger; those two adjustments are the separate
rules settled by C7 and the bag-penalty rule of the spec. -/
theorem C1_contract_round_scoring (ts : TeamState) (fb sb : Int) (fn sn : Bool)
    (hfb : fb ≠ 0) (hsb : sb ≠ 0)
    (hbags : (if fb + sb ≤ ts.current_round_tricks_won.sum
              then ts.bags + (ts.current_round_tricks_won.sum - (fb + sb))
              else ts.bags) < 10) :
    (fb + sb ≤ ts.current_round_tricks_won.sum →
      ((ts.calculate_round_totals fb fn sb sn).cumulative_points
          = ts.cumulative_points + (fb + sb) * 10 + (ts.current_round_tricks_won.sum - (fb + sb)) ∧
       (ts.calculate_round_totals fb fn sb sn).bags
          = ts.bags + (ts.current_round_tricks_won.sum - (fb + sb)))) ∧
    (ts.current_round_tricks_won.sum < fb + sb →
      ((ts.calculate_round_totals fb fn sb sn).cumulative_points
          = ts.cumulative_points - (fb + sb) * 10 ∧
       (ts.calculate_round_totals fb fn sb sn).bags = ts.bags)) := by
  constructor <;> intro h <;>
    simp only [TeamState.calculate_round_totals] <;>
    split_ifs at hbags ⊢ <;>
    simp_all <;>
    omega

/-- Witness for C1 at a concrete team state: bids 2 and 1, five tricks
won. -/
theorem C1_contract_round_scoring_witness :
    (({ current_round_tricks_won := [1, 1, 1, 1, 1, 0, 0, 0, 0, 0, 0, 0, 0], bags := 2,
        cumulative_points := 40 } : TeamState).calculate_round_totals 2 false 1 false).cumulative_points
        = 40 + (2 + 1) * 10 + (5 - (2 + 1)) ∧
    (({ current_round_tricks_won := [1, 1, 1, 1, 1, 0, 0, 0, 0, 0, 0, 0, 0], bags := 2,
        cumulative_points := 40 } : TeamState).calculate_round_totals 2 false 1 false).bags
        = 2 + (5 - (2 + 1)) := by
  have h := (C1_contract_round_scoring
    { current_round_tricks_won := [1, 1, 1, 1, 1, 0, 0, 0, 0, 0, 0, 0, 0], bags := 2,
      cumulative_points := 40 } 2 1 false false (by decide) (by decide) (by decide)).1 (by decide)
  simpa using h

/-- C2: the game-over decision taken right after the round totals at the
end of a round: over when exactly one partnership reached max points,
over when both reached it with different scores, not over (and another
round is dealt) on an exact tie. -/
theorem C2_game_over_check (s : Scoring) (i : Fin 4) (pot : Pot)
    (ht : s.trick = 12) (hov : s.is_over = false) :
    ((s.config.max_points ≤ (s.resolveTrick i pot).2.team_a.cumulative_points ∧
      (s.resolveTrick i pot).2.team_b.cumulative_points < s.config.max_points) →
        (s.resolveTrick i pot).2.is_over = true) ∧
    ((s.config.max_points ≤ (s.resolveTrick i pot).2.team_b.cumulative_points ∧
      (s.resolveTrick i pot).2.team_a.cumulative_points < s.config.max_points) →
        (s.resolveTrick i pot).2.is_over = true) ∧
    ((s.config.max_points ≤ (s.resolveTrick i pot).2.team_a.cumulative_points ∧
      s.config.max_points ≤ (s.resolveTrick i pot).2.team_b.cumulative_points ∧
      (s.resolveTrick i pot).2.team_a.cumulative_points ≠ (s.resolveTrick i pot).2.team_b.cumulative_points) →
        (s.resolveTrick i pot).2.is_over = true) ∧
    ((s.config.max_points ≤ (s.resolveTrick i pot).2.team_a.cumulative_points ∧
      s.config.max_points ≤ (s.resolveTrick i pot).2.team_b.cumulative_points ∧
      (s.resolveTrick i pot).2.team_a.cumulative_points = (s.resolveTrick i pot).2.team_b.cumulative_points) →
        ((s.resolveTrick i pot).2.is_over = false ∧
         (s.resolveTrick i pot).2.in_betting_stage = true)) := by
  unfold Scoring.resolveTrick
  split_ifs with hw <;> simp_all

/-- A concrete scoring state entering the 13th trick of a round, used to
instantiate C2: team A stands at 95 of 100 points and makes its bid. -/
def exampleScoringC2 : Scoring :=
  { config := { max_points := 100 },
    team_a := { current_round_tricks_won := [1, 0, 0, 0, 0, 0, 0, 0, 0, 0, 0, 0, 0],
                bags := 0, cumulative_points := 95 },
    team_b := { current_round_tricks_won := [1, 1, 1, 1, 1, 1, 1, 1, 1, 1, 1, 0, 0],
                bags := 0, cumulative_points := 0 },
    in_betting_stage := false,
    bets_placed := [fun _ => 1, fun _ => 0],
    is_over := false,
    round := 0,
    trick := 12,
    nil_check := fun _ => false,
    player_tricks_won := fun _ => 0 }

/-- A concrete final trick won by seat 0. -/
def examplePotC2 : Pot :=
  ![{ suit := .Club, rank := .Ace }, { suit := .Club, rank := .Two },
    { suit := .Club, rank := .Three }, { suit := .Club, rank := .Four }]

/-- Witness for C2: in the concrete state only team A crosses max
points, so the game becomes over. -/
theorem C2_game_over_check_witness :
    (exampleScoringC2.resolveTrick 0 examplePotC2).2.is_over = true :=
  (C2_game_over_check exampleScoringC2 0 examplePotC2 rfl rfl).1 (by decide)

/-- The scoring formula of spec §4.2 for the partnership contract and
the bag penalty, with no nil adjustment: written from the spec text to
compare against `calculate_round_totals`. -/
def specContractBagsPoints (points bags teamTricks teamBets : Int) : Int :=
  let base := if teamBets ≤ teamTricks then points + (teamTricks - teamBets) + teamBets * 10
              else points - teamBets * 10
  let newBags := if teamBets ≤ teamTricks then bags + (teamTricks - teamBets) else bags
  if 10 ≤ newBags then base - 100 else base

/-- The spec formula for an individual nil bid: plus 100 when the seat
won no trick this round, minus 100 when it did, nothing when the bid
was not nil. -/
def specNilAdj (bet : Int) (wonTrick : Bool) : Int :=
  if bet = 0 then (if wonTrick then -100 else 100) else 0

/-- The totals of `calculate_round_totals` decompose into the contract-and-bags
formula plus the two independent nil adjustments. -/
lemma calculate_round_totals_decomp (ts : TeamState) (fb sb : Int) (fn sn : Bool) :
    (ts.calculate_round_totals fb fn sb sn).cumulative_points
      = specContractBagsPoints ts.cumulative_points ts.bags
          ts.current_round_tricks_won.sum (fb + sb)
        + specNilAdj fb fn + specNilAdj sb sn := by
  simp only [TeamState.calculate_round_totals, specContractBagsPoints, specNilAdj]
  split_ifs <;> simp_all <;> omega

/-- C7: at the end of a round, each seat that bid nil contributes an
independent plus or minus 100 to its own partnership score, keyed to
the has-won-a-trick flag of that seat, as updated by the final trick: seats 0
and 2 feed team A, seats 1 and 3 feed team B, additively separate from
the contract and bag scoring. -/
theorem C7_nil_bid_scoring (s : Scoring) (i : Fin 4) (pot : Pot) (ht : s.trick = 12) :
    ((s.resolveTrick i pot).2.team_a.cumulative_points
       = specContractBagsPoints s.team_a.cumulative_points s.team_a.bags
           ((if (getTrickWinner i pot).val % 2 = 0
             then incTrickAt s.team_a.current_round_tricks_won s.trick
             else s.team_a.current_round_tricks_won).sum)
           (s.bets_placed.getD s.round (fun _ => 0) 0 + s.bets_placed.getD s.round (fun _ => 0) 2)
         + specNilAdj (s.bets_placed.getD s.round (fun _ => 0) 0)
             (Function.update s.nil_check (getTrickWinner i pot) true 0)
         + specNilAdj (s.bets_placed.getD s.round (fun _ => 0) 2)
             (Function.update s.nil_check (getTrickWinner i pot) true 2)) ∧
    ((s.resolveTrick i pot).2.team_b.cumulative_points
       = specContractBagsPoints s.team_b.cumulative_points s.team_b.bags
           ((if (getTrickWinner i pot).val % 2 = 0
             then s.team_b.current_round_tricks_won
             else incTrickAt s.team_b.current_round_tricks_won s.trick).sum)
           (s.bets_placed.getD s.round (fun _ => 0) 1 + s.bets_placed.getD s.round (fun _ => 0) 3)
         + specNilAdj (s.bets_placed.getD s.round (fun _ => 0) 1)
             (Function.update s.nil_check (getTrickWinner i pot) true 1)
         + specNilAdj (s.bets_placed.getD s.round (fun _ => 0) 3)
             (Function.update s.nil_check (getTrickWinner i pot) true 3)) := by
  unfold Scoring.resolveTrick
  split_ifs with hw <;> simp_all [calculate_round_totals_decomp]

/-- A concrete final trick won by seat 2. -/
def examplePotC7 : Pot :=
  ![{ suit := .Diamond, rank := .Two }, { suit := .Diamond, rank := .King },
    { suit := .Diamond, rank := .Ace }, { suit := .Diamond, rank := .Three }]

/-- A concrete scoring state entering the 13th trick with seat 0 having
bid nil and not having won a trick. -/
def exampleScoringC7 : Scoring :=
  { config := { max_points := 500 },
    team_a := { current_round_tricks_won := [1, 1, 1, 1, 1, 0, 0, 0, 0, 0, 0, 0, 0],
                bags := 0, cumulative_points := 0 },
    team_b := { current_round_tricks_won := [1, 1, 1, 1, 1, 1, 1, 0, 0, 0, 0, 0, 0],
                bags := 0, cumulative_points := 0 },
    in_betting_stage := false,
    bets_placed := [![0, 3, 3, 3], fun _ => 0],
    is_over := false,
    round := 0,
    trick := 12,
    nil_check := fun _ => false,
    player_tricks_won := fun _ => 0 }

/-- Witness for C7: concrete instantiation of the nil decomposition at
the state above, with the last trick won by seat 2. -/
theorem C7_nil_bid_scoring_witness :
    (exampleScoringC7.resolveTrick 0 examplePotC7).2.team_a.cumulative_points
      = specContractBagsPoints exampleScoringC7.team_a.cumulative_points
          exampleScoringC7.team_a.bags
          ((if (getTrickWinner 0 examplePotC7).val % 2 = 0
            then incTrickAt exampleScoringC7.team_a.current_round_tricks_won
              exampleScoringC7.trick
            else exampleScoringC7.team_a.current_round_tricks_won).sum)
          (exampleScoringC7.bets_placed.getD exampleScoringC7.round (fun _ => 0) 0
            + exampleScoringC7.bets_placed.getD exampleScoringC7.round (fun _ => 0) 2)
        + specNilAdj (exampleScoringC7.bets_placed.getD exampleScoringC7.round (fun _ => 0) 0)
            (Function.update exampleScoringC7.nil_check (getTrickWinner 0 examplePotC7) true 0)
        + specNilAdj (exampleScoringC7.bets_placed.getD exampleScoringC7.round (fun _ => 0) 2)
            (Function.update exampleScoringC7.nil_check (getTrickWinner 0 examplePotC7) true 2) :=
  (C7_nil_bid_scoring exampleScoringC7 0 examplePotC7 rfl).1

/-! ## Table state machine (`src/lib.rs`) -/

/-- Embeds `enum State`: the phase of a table.  `Betting k` / `Trick k`
count the actions completed at the current round position; `Aborted` is
the terminal phase set by the scheduler (used throughout `src/lib.rs`
and `src/game_manager.rs`). -/
inductive State where
  | NotStarted
  | Betting (k : Nat)
  | Trick (k : Nat)
  | Completed
  | Aborted
deriving DecidableEq, Repr

/-- Embeds `enum GameTransition`. -/
inductive GameTransition where
  | Bet (amount : Int)
  | Card (card : Card)
  | Start

/-- Embeds `enum TransitionSuccess` from `src/result.rs`. -/
inductive TransitionSuccess where
  | Bet
  | BetComplete
  | Trick
  | PlayCard
  | GameOver
  | Start
deriving DecidableEq, Repr

/-- Embeds `enum TransitionError` from `src/result.rs`. -/
inductive TransitionError where
  | AlreadyStarted
  | NotStarted
  | CardInBettingStage
  | BetInTrickStage
  | CompletedGame
  | CardNotInHand
  | CardIncorrectSuit
deriving DecidableEq, Repr

/-- Insert a card into a list sorted ascending by `cardKey`. -/
def insertCard (c : Card) : List Card → List Card
  | [] => [c]
  | d :: ds => if cardKey c ≤ cardKey d then c :: d :: ds else d :: insertCard c ds

/-- Sorting of a hand ascending by the `Ord` key `suit * 15 + rank`, as
`hand.sort()` in `Game::deal_cards` (insertion sort; the result agrees
with any sorting algorithm because `cardKey` is injective on cards). -/
def sortCards : List Card → List Card
  | [] => []
  | c :: cs => insertCard c (sortCards cs)

lemma insertCard_perm (c : Card) (l : List Card) : (insertCard c l).Perm (c :: l) := by
  induction l with
  | nil => simp [insertCard]
  | cons d ds ih =>
      by_cases h : cardKey c ≤ cardKey d
      · simp [insertCard, h]
      · simp only [insertCard, if_neg h]
        exact (List.Perm.cons d ih).trans (List.Perm.swap c d ds)

lemma sortCards_perm (l : List Card) : (sortCards l).Perm l := by
  induction l with
  | nil => simp [sortCards]
  | cons c cs ih =>
      exact (insertCard_perm c (sortCards cs)).trans (List.Perm.cons c ih)

/-- The four growing hand slots of `deal_four_players`. -/
structure DealResult where
  s0 : List Card
  s1 : List Card
  s2 : List Card
  s3 : List Card

/-- The `while cards.len() > 0` loop of `deal_four_players`: the input
list here is the deck already reversed, because the Rust loop pops from
the back; slot `i % 4` receives each successive card. -/
def distributeGo : List Card → Nat → DealResult → DealResult
  | [], _, acc => acc
  | c :: rest, i, acc =>
    if i % 4 = 0 then distributeGo rest (i + 1) { acc with s0 := acc.s0 ++ [c] }
    else if i % 4 = 1 then distributeGo rest (i + 1) { acc with s1 := acc.s1 ++ [c] }
    else if i % 4 = 2 then distributeGo rest (i + 1) { acc with s2 := acc.s2 ++ [c] }
    else distributeGo rest (i + 1) { acc with s3 := acc.s3 ++ [c] }

/-- Embeds `deal_four_players` from `src/cards.rs`: shuffle (the caller
supplies the shuffle as a function), then pop the whole deck round-robin
into four hands.  The 52-card assertion of the Rust code is a
precondition established by the reachability invariant. -/
def dealFourPlayers (sh : List Card → List Card) (cards : List Card) : DealResult :=
  distributeGo (sh cards).reverse 0 { s0 := [], s1 := [], s2 := [], s3 := [] }

lemma distributeGo_ms (l : List Card) : ∀ (i : Nat) (acc : DealResult),
    (↑((distributeGo l i acc).s0 ++ (distributeGo l i acc).s1 ++
       (distributeGo l i acc).s2 ++ (distributeGo l i acc).s3) : Multiset Card)
      = ↑(acc.s0 ++ acc.s1 ++ acc.s2 ++ acc.s3) + ↑l := by
  induction l with
  | nil => intro i acc; simp [distributeGo]
  | cons c rest ih =>
      intro i acc
      by_cases h0 : i % 4 = 0
      · rw [show distributeGo (c :: rest) i acc
            = distributeGo rest (i + 1) { acc with s0 := acc.s0 ++ [c] } by
              simp [distributeGo, h0]]
        rw [ih]
        simp only [← Multiset.coe_add, ← Multiset.cons_coe, ← Multiset.singleton_add, Multiset.coe_nil, add_zero]
        abel
      · by_cases h1 : i % 4 = 1
        · rw [show distributeGo (c :: rest) i acc
              = distributeGo rest (i + 1) { acc with s1 := acc.s1 ++ [c] } by
                simp [distributeGo, h0, h1]]
          rw [ih]
          simp only [← Multiset.coe_add, ← Multiset.cons_coe, ← Multiset.singleton_add, Multiset.coe_nil, add_zero]
          abel
        · by_cases h2 : i % 4 = 2
          · rw [show distributeGo (c :: rest) i acc
                = distributeGo rest (i + 1) { acc with s2 := acc.s2 ++ [c] } by
                  simp [distributeGo, h0, h1, h2]]
            rw [ih]
            simp only [← Multiset.coe_add, ← Multiset.cons_coe, ← Multiset.singleton_add, Multiset.coe_nil, add_zero]
            abel
          · rw [show distributeGo (c :: rest) i acc
                = distributeGo rest (i + 1) { acc with s3 := acc.s3 ++ [c] } by
                  simp [distributeGo, h0, h1, h2]]
            rw [ih]
            simp only [← Multiset.coe_add, ← Multiset.cons_coe, ← Multiset.singleton_add, Multiset.coe_nil, add_zero]
            abel

/-- The 52-card deck in the construction order of `new_deck` from
`src/cards.rs` (before its shuffle; shuffles are modelled as explicit
permutation parameters). -/
def fullDeck : List Card :=
  ([Suit.Club, Suit.Diamond, Suit.Heart, Suit.Spade].map (fun s =>
    [Rank.Two, Rank.Three, Rank.Four, Rank.Five, Rank.Six, Rank.Seven, Rank.Eight,
     Rank.Nine, Rank.Ten, Rank.Jack, Rank.Queen, Rank.King, Rank.Ace].map (fun r =>
      { suit := s, rank := r }))).flatten

deriving instance DecidableEq for Except

/-- Embeds `struct Game` from `src/lib.rs`, restricted to the fields
`Game::play` reads or writes (the identifier, player ids, display names
and timer fields are never touched by `play`).  The four player hands
are collected into one function from seats. -/
structure Game where
  state : State
  scoring : Scoring
  current_player_index : Fin 4
  deck : List Card
  hands_played : List Pot
  leading_suit : Suit
  hands : Fin 4 → List Card
deriving DecidableEq

/-- Embeds `Game::new`: the initial deck is a parameter standing for the
shuffled deck produced by `new_deck()`. -/
def Game.new (max_points : Int) (deck0 : List Card) : Game :=
  { state := .NotStarted,
    scoring := Scoring.new max_points,
    current_player_index := 0,
    deck := deck0,
    hands_played := [newPot],
    leading_suit := .Blank,
    hands := fun _ => [] }

/-- Seat rotation `(i + 1) % 4`. -/
def nextIdx (i : Fin 4) : Fin 4 := ⟨(i.val + 1) % 4, Nat.mod_lt _ (by omega)⟩

/-- Embeds `Game::deal_cards`: shuffle the deck, deal it round robin
(`deal_four_players` shuffles once more internally), assign the four
hands in the pop order of the Rust code (seat A receives slot 3) and
sort each hand. -/
def Game.dealCards (sh : List Card → List Card) (g : Game) : Game :=
  let r := dealFourPlayers sh (sh g.deck)
  { g with deck := [],
           hands := ![sortCards r.s3, sortCards r.s2, sortCards r.s1, sortCards r.s0] }

/-- Embeds `Game::play` from `src/lib.rs`.  The result pairs the Rust
return value with the state of the table after the call, including any
mutations already performed before an early error return (there are
none on any error path, which is claim C10).  `sh` is the shuffle used
by any deal performed during the transition. -/
def Game.play (sh : List Card → List Card) (g : Game) (entry : GameTransition) :
    (Except TransitionError TransitionSuccess) × Game :=
  match entry with
  | .Bet bet =>
    match g.state with
    | .NotStarted => (.error .NotStarted, g)
    | .Trick _ => (.error .BetInTrickStage, g)
    | .Completed => (.error .CompletedGame, g)
    | .Aborted => (.error .CompletedGame, g)
    | .Betting rotation_status =>
      let g1 := { g with scoring := g.scoring.add_bet g.current_player_index bet }
      if rotation_status = 3 then
        (.ok .BetComplete,
          { g1 with scoring := g1.scoring.bet,
                    state := .Trick ((rotation_status + 1) % 4),
                    current_player_index := 0 })
      else
        (.ok .Bet,
          { g1 with current_player_index := nextIdx g1.current_player_index,
                    state := .Betting ((rotation_status + 1) % 4) })
  | .Card card =>
    match g.state with
    | .NotStarted => (.error .NotStarted, g)
    | .Completed => (.error .CompletedGame, g)
    | .Aborted => (.error .CompletedGame, g)
    | .Betting _ => (.error .CardInBettingStage, g)
    | .Trick rotation_status =>
      let hand := g.hands g.current_player_index
      if card ∈ hand then
        let leading_suit := g.leading_suit
        let g1 := if rotation_status = 0 then { g with leading_suit := card.suit } else g
        if g1.leading_suit ≠ card.suit ∧ hand.any (fun x => x.suit == leading_suit) then
          (.error .CardIncorrectSuit, g1)
        else
          let g2 := { g1 with
            hands := Function.update g1.hands g1.current_player_index (hand.erase card),
            deck := g1.deck ++ [card] }
          let g3 := { g2 with
            hands_played := modifyLast
              (fun pot => Function.update pot g2.current_player_index card) g2.hands_played }
          if rotation_status = 3 then
            let res := g3.scoring.resolveTrick g3.current_player_index
              (g3.hands_played.getLastD newPot)
            let g4 := { g3 with scoring := res.2 }
            if res.2.is_over then
              (.ok .GameOver, { g4 with state := .Completed })
            else if res.2.in_betting_stage then
              (.ok .Trick, Game.dealCards sh
                { g4 with current_player_index := 0,
                          state := .Betting ((rotation_status + 1) % 4) })
            else
              (.ok .Trick, { g4 with current_player_index := res.1,
                                     state := .Trick ((rotation_status + 1) % 4),
                                     hands_played := g4.hands_played ++ [newPot] })
          else
            (.ok .PlayCard, { g3 with current_player_index := nextIdx g3.current_player_index,
                                      state := .Trick ((rotation_status + 1) % 4) })
      else (.error .CardNotInHand, g)
  | .Start =>
    if g.state = .NotStarted then
      (.ok .Start, { (Game.dealCards sh g) with state := .Betting 0 })
    else (.error .AlreadyStarted, g)

example :
    ((Game.new 500 fullDeck).play id .Start).1 = .ok .Start := by decide

example :
    (((Game.new 500 fullDeck).play id .Start).2.hands 0).length = 13 := by decide

/-- C10: whenever `Game::play` returns an error, the table is completely
unchanged: phase, acting seat, hands, deck, recorded tricks, leading
suit and scoring are all as before the call. -/
theorem C10_error_leaves_game_unchanged (sh : List Card → List Card) (g : Game)
    (t : GameTransition) (e : TransitionError)
    (h : (g.play sh t).1 = .error e) : (g.play sh t).2 = g := by
  cases t with
  | Bet bet =>
      cases hst : g.state <;>
        simp only [Game.play, hst] at h ⊢ <;>
        first
          | rfl
          | (split_ifs at h <;> simp_all)
  | Card card =>
      cases hst : g.state <;>
        simp only [Game.play, hst] at h ⊢ <;>
        first
          | rfl
          | (split_ifs at h ⊢ <;> simp_all)
  | Start =>
      by_cases hst : g.state = .NotStarted <;> simp_all [Game.play]

/-- A fresh game on the unshuffled deck, used to instantiate C10. -/
def exampleFreshGame : Game := Game.new 500 fullDeck

/-- Witness for C10: a bet before the start fails with `NotStarted` and
leaves the fresh game unchanged. -/
theorem C10_error_leaves_game_unchanged_witness :
    ((exampleFreshGame.play id (.Bet 3)).1 = .error .NotStarted) ∧
    (exampleFreshGame.play id (.Bet 3)).2 = exampleFreshGame :=
  ⟨by decide, C10_error_leaves_game_unchanged id exampleFreshGame (.Bet 3) .NotStarted (by decide)⟩

/-- C6 (amended): on a table in phase `Completed` or `Aborted`, `Bet`
and `Card` moves fail with `CompletedGame`, while `Start` fails with
`AlreadyStarted` (the start check fires before any phase distinction). -/
theorem C6_terminal_phase_errors (sh : List Card → List Card) (g : Game)
    (h : g.state = .Completed ∨ g.state = .Aborted) :
    (∀ n : Int, (g.play sh (.Bet n)).1 = .error .CompletedGame) ∧
    (∀ c : Card, (g.play sh (.Card c)).1 = .error .CompletedGame) ∧
    (g.play sh .Start).1 = .error .AlreadyStarted := by
  rcases h with h | h <;> simp [Game.play, h]

/-- A table already in the `Completed` phase. -/
def exampleCompletedGame : Game := { Game.new 500 fullDeck with state := .Completed }

/-- Counterexample for C6 as stated: `Start` on a completed table does
not fail with `CompletedGame` (it fails with `AlreadyStarted`). -/
theorem C6_counterexample_start_on_completed :
    (exampleCompletedGame.play id .Start).1 ≠ .error .CompletedGame := by decide

/-- Witness for C6 (amended) on the concrete completed table. -/
theorem C6_terminal_phase_errors_witness :
    ((exampleCompletedGame.play id (.Bet 3)).1 = .error .CompletedGame) ∧
    ((exampleCompletedGame.play id (.Card { suit := .Club, rank := .Two })).1
        = .error .CompletedGame) ∧
    ((exampleCompletedGame.play id .Start).1 = .error .AlreadyStarted) := by
  have h := C6_terminal_phase_errors id exampleCompletedGame (Or.inl rfl)
  exact ⟨h.1 3, h.2.1 { suit := .Club, rank := .Two }, h.2.2⟩

/-- C8: in phase `Trick k` with `k ≥ 1`, a seat holding the leading suit
must follow it (playing another suit fails with `CardIncorrectSuit` and
leaves the table unchanged), and a seat void in the leading suit may
play any card of its hand. -/
theorem C8_follow_suit (sh : List Card → List Card) (g : Game) (card : Card) (k : Nat)
    (hst : g.state = .Trick k) (hk : 1 ≤ k)
    (hin : card ∈ g.hands g.current_player_index) :
    ((card.suit ≠ g.leading_suit ∧
      ∃ x ∈ g.hands g.current_player_index, x.suit = g.leading_suit) →
        g.play sh (.Card card) = (.error .CardIncorrectSuit, g)) ∧
    ((∀ x ∈ g.hands g.current_player_index, x.suit ≠ g.leading_suit) →
        ∃ s, (g.play sh (.Card card)).1 = .ok s) := by
  have hk0 : ¬ k = 0 := by omega
  constructor
  · rintro ⟨hneq, x, hx, hxs⟩
    simp only [Game.play, hst, if_pos hin, if_neg hk0]
    split_ifs with hcond
    · rfl
    all_goals exact absurd ⟨fun hc => hneq hc.symm, by
      simp only [List.any_eq_true, beq_iff_eq]; exact ⟨x, hx, hxs⟩⟩ hcond
  · intro hvoid
    simp only [Game.play, hst, if_pos hin, if_neg hk0]
    split_ifs with hcond
    · exfalso
      obtain ⟨-, hany⟩ := hcond
      simp only [List.any_eq_true, beq_iff_eq] at hany
      obtain ⟨x, hx, hxs⟩ := hany
      exact hvoid x hx hxs
    all_goals exact ⟨_, rfl⟩

/-- A table in phase `Trick 1` whose acting seat holds the leading suit. -/
def exampleTrickGame : Game :=
  { state := .Trick 1,
    scoring := Scoring.new 500,
    current_player_index := 1,
    deck := [],
    hands_played := [newPot],
    leading_suit := .Heart,
    hands := ![[{ suit := .Heart, rank := .Two }],
               [{ suit := .Heart, rank := .Five }, { suit := .Club, rank := .Ace }],
               [{ suit := .Heart, rank := .Six }],
               [{ suit := .Heart, rank := .Seven }]] }

/-- A table in phase `Trick 1` whose acting seat is void in the leading
suit. -/
def exampleTrickGameVoid : Game :=
  { exampleTrickGame with
    hands := ![[{ suit := .Heart, rank := .Two }],
               [{ suit := .Spade, rank := .Five }, { suit := .Club, rank := .Ace }],
               [{ suit := .Heart, rank := .Six }],
               [{ suit := .Heart, rank := .Seven }]] }

/-- Witness for C8: a concrete off-suit play is rejected while holding
the leading suit, and accepted when void in it. -/
theorem C8_follow_suit_witness :
    (exampleTrickGame.play id (.Card { suit := .Club, rank := .Ace })
        = (.error .CardIncorrectSuit, exampleTrickGame)) ∧
    (∃ s, (exampleTrickGameVoid.play id (.Card { suit := .Club, rank := .Ace })).1 = .ok s) := by
  constructor
  · exact (C8_follow_suit id exampleTrickGame { suit := .Club, rank := .Ace } 1
      rfl (by decide) (by decide)).1 (by decide)
  · exact (C8_follow_suit id exampleTrickGameVoid { suit := .Club, rank := .Ace } 1
      rfl (by decide) (by decide)).2 (by decide)

/-! ## The card-conservation invariant (C5) -/

/-- The multiset of cards across the four seat hands and the deck. -/
def msOf (hands : Fin 4 → List Card) (deck : List Card) : Multiset Card :=
  (∑ j : Fin 4, (↑(hands j) : Multiset Card)) + ↑deck

/-- The 52-card deck as a multiset. -/
def fullDeckM : Multiset Card := ↑fullDeck

/-- Card conservation: seat hands and deck remainder together hold
exactly the 52 cards. -/
def cardsInv (g : Game) : Prop := msOf g.hands g.deck = fullDeckM

/-- Phase-dependent bookkeeping that makes card conservation inductive:
hands are empty before the start, the deck is empty while betting, and
during trick play the deck holds exactly the cards played so far this
round. -/
def phaseInv (g : Game) : Prop :=
  match g.state with
  | .NotStarted => g.hands 0 = [] ∧ g.hands 1 = [] ∧ g.hands 2 = [] ∧ g.hands 3 = []
  | .Betting _ => g.deck = []
  | .Trick k => g.deck.length = 4 * g.scoring.trick + k ∧ k < 4 ∧
      g.scoring.trick ≤ 12 ∧ g.scoring.in_betting_stage = false
  | .Completed => True
  | .Aborted => True

/-- The inductive invariant for reachable tables. -/
def Inv (g : Game) : Prop := cardsInv g ∧ phaseInv g

lemma resolveTrick_in_betting (s : Scoring) (i : Fin 4) (pot : Pot) :
    (s.resolveTrick i pot).2.in_betting_stage
      = (if s.trick = 12 then true else s.in_betting_stage) := by
  unfold Scoring.resolveTrick
  by_cases hw : (getTrickWinner i pot).val % 2 = 0 <;>
    by_cases h12 : s.trick = 12 <;>
    simp [hw, h12]

lemma resolveTrick_trick (s : Scoring) (i : Fin 4) (pot : Pot) :
    (s.resolveTrick i pot).2.trick = (if s.trick = 12 then s.trick else s.trick + 1) := by
  unfold Scoring.resolveTrick
  by_cases hw : (getTrickWinner i pot).val % 2 = 0 <;>
    by_cases h12 : s.trick = 12 <;>
    simp [hw, h12]

/-- Moving a card from the hand that contains it onto the back of the
deck preserves the card multiset. -/
lemma msOf_move (hands : Fin 4 → List Card) (deck : List Card) (i : Fin 4) (card : Card)
    (hin : card ∈ hands i) :
    msOf (Function.update hands i ((hands i).erase card)) (deck ++ [card])
      = msOf hands deck := by
  have hkey : (↑(hands i) : Multiset Card) = card ::ₘ ↑((hands i).erase card) := by
    rw [Multiset.cons_coe]
    exact Multiset.coe_eq_coe.2 (List.perm_cons_erase hin)
  have hupd : ∀ j, (↑(Function.update hands i ((hands i).erase card) j) : Multiset Card)
      = Function.update (fun k => (↑(hands k) : Multiset Card)) i
          (↑((hands i).erase card)) j :=
    fun j => Function.apply_update (α := fun _ => List Card) (β := fun _ => Multiset Card)
      (fun (_ : Fin 4) (l : List Card) => (↑l : Multiset Card)) hands i _ j
  rw [msOf, msOf]
  simp only [hupd]
  rw [Finset.sum_update_of_mem (Finset.mem_univ i),
    ← Finset.add_sum_erase _ _ (Finset.mem_univ i), hkey,
    ← Multiset.coe_add, Multiset.coe_singleton]
  simp only [← Multiset.singleton_add, Finset.erase_eq]
  abel

/-- Dealing distributes exactly the (twice-shuffled) deck into the four
hands and empties the deck. -/
lemma dealCards_msOf (sh : List Card → List Card) (hsh : ∀ l, (sh l).Perm l) (g : Game) :
    msOf (g.dealCards sh).hands (g.dealCards sh).deck = ↑g.deck := by
  have hms := distributeGo_ms ((sh (sh g.deck)).reverse) 0
    { s0 := [], s1 := [], s2 := [], s3 := [] }
  simp only [List.append_nil, List.nil_append, Multiset.coe_nil, zero_add,
    ← Multiset.coe_add] at hms
  have hrev : (↑((sh (sh g.deck)).reverse) : Multiset Card) = ↑g.deck := by
    rw [Multiset.coe_reverse]
    exact Multiset.coe_eq_coe.2 ((hsh (sh g.deck)).trans (hsh g.deck))
  set r := distributeGo ((sh (sh g.deck)).reverse) 0
    { s0 := [], s1 := [], s2 := [], s3 := [] } with hr
  simp only [Game.dealCards, dealFourPlayers, msOf, Fin.sum_univ_four, ← hr]
  simp only [Matrix.cons_val_zero, Matrix.cons_val_one, Matrix.head_cons,
    Matrix.cons_val_two, Matrix.tail_cons, Matrix.cons_val_three,
    Multiset.coe_nil, add_zero]
  rw [Multiset.coe_eq_coe.2 (sortCards_perm r.s3),
    Multiset.coe_eq_coe.2 (sortCards_perm r.s2),
    Multiset.coe_eq_coe.2 (sortCards_perm r.s1),
    Multiset.coe_eq_coe.2 (sortCards_perm r.s0),
    ← hrev, ← hms]
  abel

lemma fullDeckM_card : Multiset.card fullDeckM = 52 := rfl

/-- When the deck already holds 52 cards, conservation forces all four
hands to be empty. -/
lemma hands_nil_of_full (hands : Fin 4 → List Card) (deck : List Card)
    (h : msOf hands deck = fullDeckM) (hlen : deck.length = 52) :
    hands 0 = [] ∧ hands 1 = [] ∧ hands 2 = [] ∧ hands 3 = [] := by
  have hcard := congrArg Multiset.card h
  simp only [msOf, Fin.sum_univ_four, Multiset.card_add, Multiset.coe_card,
    fullDeckM_card, hlen] at hcard
  exact ⟨List.length_eq_zero.1 (by omega), List.length_eq_zero.1 (by omega),
    List.length_eq_zero.1 (by omega), List.length_eq_zero.1 (by omega)⟩

/-- With empty hands, conservation says the deck alone is the full
52-card deck. -/
lemma deck_full_of_empty_hands (hands : Fin 4 → List Card) (deck : List Card)
    (h : msOf hands deck = fullDeckM)
    (h0 : hands 0 = []) (h1 : hands 1 = []) (h2 : hands 2 = []) (h3 : hands 3 = []) :
    (↑deck : Multiset Card) = fullDeckM := by
  simpa [msOf, Fin.sum_univ_four, h0, h1, h2, h3] using h

/-- Every successful `Game::play` transition preserves the invariant,
for any permutation used as the shuffle. -/
theorem play_preserves_Inv (sh : List Card → List Card) (hsh : ∀ l, (sh l).Perm l)
    (g g2 : Game) (t : GameTransition) (s : TransitionSuccess)
    (hInv : Inv g) (hp : g.play sh t = (.ok s, g2)) : Inv g2 := by
  obtain ⟨hc, hph⟩ := hInv
  cases t with
  | Start =>
      by_cases hst : g.state = .NotStarted
      · simp only [Game.play, if_pos hst] at hp
        injection hp with hs hg2
        subst hg2
        simp only [phaseInv, hst] at hph
        obtain ⟨h0, h1, h2, h3⟩ := hph
        constructor
        · show msOf (g.dealCards sh).hands (g.dealCards sh).deck = fullDeckM
          rw [dealCards_msOf sh hsh g]
          exact deck_full_of_empty_hands g.hands g.deck hc h0 h1 h2 h3
        · simp [phaseInv, Game.dealCards]
      · simp only [Game.play, if_neg hst] at hp
        injection hp with hs hg2
        injection hs
  | Bet bet =>
      cases hstate : g.state with
      | NotStarted => simp [Game.play, hstate] at hp
      | Completed => simp [Game.play, hstate] at hp
      | Aborted => simp [Game.play, hstate] at hp
      | Trick k => simp [Game.play, hstate] at hp
      | Betting k =>
        simp only [Game.play, hstate] at hp
        simp only [phaseInv, hstate] at hph
        by_cases h3 : k = 3
        · rw [if_pos h3] at hp
          injection hp with hs hg2
          subst hg2
          refine ⟨hc, ?_⟩
          subst h3
          simp [phaseInv, Scoring.bet, Scoring.add_bet, hph]
        · rw [if_neg h3] at hp
          injection hp with hs hg2
          subst hg2
          exact ⟨hc, by simp [phaseInv, hph]⟩
  | Card card =>
      cases hstate : g.state with
      | NotStarted => simp [Game.play, hstate] at hp
      | Completed => simp [Game.play, hstate] at hp
      | Aborted => simp [Game.play, hstate] at hp
      | Betting k => simp [Game.play, hstate] at hp
      | Trick k =>
        simp only [Game.play, hstate] at hp
        simp only [phaseInv, hstate] at hph
        obtain ⟨hlen, hk4, ht12, hbet⟩ := hph
        by_cases hin : card ∈ g.hands g.current_player_index
        · rw [if_pos hin] at hp
          by_cases h0 : k = 0
          · rw [if_pos h0, if_neg (by simp)] at hp
            have hk3 : ¬ k = 3 := by omega
            rw [if_neg hk3] at hp
            injection hp with hs hg2
            subst hg2
            refine ⟨(msOf_move g.hands g.deck g.current_player_index card hin).trans hc, ?_⟩
            subst h0
            simp only [phaseInv]
            refine ⟨?_, by omega, ht12, hbet⟩
            simp [List.length_append, hlen]
          · rw [if_neg h0] at hp
            by_cases hcond : g.leading_suit ≠ card.suit ∧
                (g.hands g.current_player_index).any (fun x => x.suit == g.leading_suit)
            · rw [if_pos hcond] at hp
              injection hp with hs hg2
              injection hs
            · rw [if_neg hcond] at hp
              by_cases h3 : k = 3
              · rw [if_pos h3] at hp
                split_ifs at hp with hover hbet2
                · injection hp with hs hg2
                  subst hg2
                  exact ⟨(msOf_move g.hands g.deck g.current_player_index card hin).trans hc,
                    by simp [phaseInv]⟩
                · injection hp with hs hg2
                  subst hg2
                  rw [resolveTrick_in_betting] at hbet2
                  simp only [hbet] at hbet2
                  have ht12b : g.scoring.trick = 12 := by
                    by_cases h : g.scoring.trick = 12
                    · exact h
                    · simp [h] at hbet2
                  have hmv := (msOf_move g.hands g.deck g.current_player_index card hin).trans hc
                  have hlen2 : (g.deck ++ [card]).length = 52 := by
                    simp [List.length_append, hlen, ht12b, h3]
                  obtain ⟨e0, e1, e2, e3⟩ := hands_nil_of_full _ _ hmv hlen2
                  constructor
                  · show msOf (Game.dealCards sh _).hands (Game.dealCards sh _).deck = fullDeckM
                    rw [dealCards_msOf sh hsh]
                    exact deck_full_of_empty_hands _ _ hmv e0 e1 e2 e3
                  · simp [phaseInv, Game.dealCards]
                · injection hp with hs hg2
                  subst hg2
                  rw [resolveTrick_in_betting] at hbet2
                  simp only [hbet] at hbet2
                  have ht12c : ¬ g.scoring.trick = 12 := by
                    by_cases h : g.scoring.trick = 12
                    · simp [h] at hbet2
                    · exact h
                  refine ⟨(msOf_move g.hands g.deck g.current_player_index card hin).trans hc, ?_⟩
                  simp only [phaseInv]
                  rw [resolveTrick_trick, resolveTrick_in_betting]
                  simp only [ht12c, if_neg, ite_false, hbet]
                  refine ⟨?_, by omega, by omega, by trivial⟩
                  simp [List.length_append, hlen, h3]
                  omega
              · rw [if_neg h3] at hp
                injection hp with hs hg2
                subst hg2
                refine ⟨(msOf_move g.hands g.deck g.current_player_index card hin).trans hc, ?_⟩
                simp only [phaseInv]
                have hmod : (k + 1) % 4 = k + 1 := Nat.mod_eq_of_lt (by omega)
                rw [hmod]
                refine ⟨?_, by omega, ht12, hbet⟩
                simp [List.length_append, hlen]
                omega
        · rw [if_neg hin] at hp
          injection hp with hs hg2
          injection hs

/-- States reachable from a fresh table (`Game::new` on a shuffled
52-card deck) by successful `play` transitions, each with an arbitrary
permutation as its shuffle. -/
inductive Reachable : Game → Prop where
  | init (max_points : Int) (d0 : List Card) (hd : d0.Perm fullDeck) :
      Reachable (Game.new max_points d0)
  | step (g g2 : Game) (sh : List Card → List Card) (t : GameTransition)
      (s : TransitionSuccess) (hsh : ∀ l, (sh l).Perm l) (hg : Reachable g)
      (hp : g.play sh t = (.ok s, g2)) : Reachable g2

lemma Inv_of_reachable (g : Game) (h : Reachable g) : Inv g := by
  induction h with
  | init mp d0 hd =>
      constructor
      · show msOf (fun _ => []) d0 = fullDeckM
        simp only [msOf, Fin.sum_univ_four, Multiset.coe_nil, add_zero, zero_add]
        exact Multiset.coe_eq_coe.2 hd
      · exact ⟨rfl, rfl, rfl, rfl⟩
  | step g g2 sh t s hsh hg hp ih =>
      exact play_preserves_Inv sh hsh g g2 t s ih hp

/-- C5 (amended): for every state reachable by successful play
transitions, the multiset union of the four seat hands and the deck
remainder is exactly the standard 52-card deck, with no card twice.
The original claim also adds the cards of the completed-trick
slots of the current round to the union; those cards are already part of the
deck remainder (`play` pushes every played card onto the deck), so the
original union counts them twice — see the counterexample. -/
theorem C5_card_conservation (g : Game) (h : Reachable g) :
    msOf g.hands g.deck = fullDeckM ∧ Multiset.Nodup (msOf g.hands g.deck) := by
  have hInv := Inv_of_reachable g h
  refine ⟨hInv.1, ?_⟩
  rw [hInv.1]
  decide

/-- Witness for C5 on the freshly created table. -/
theorem C5_card_conservation_witness :
    msOf (Game.new 500 fullDeck).hands (Game.new 500 fullDeck).deck = fullDeckM ∧
    Multiset.Nodup (msOf (Game.new 500 fullDeck).hands (Game.new 500 fullDeck).deck) :=
  C5_card_conservation (Game.new 500 fullDeck)
    (Reachable.init 500 fullDeck (List.Perm.refl _))

/-- The non-blank cards of a trick pot. -/
def potCards (p : Pot) : List Card :=
  ((List.finRange 4).map p).filter (fun c => !(c == blankCard))

/-- The cards recorded in completed-trick slots (all pots but the
in-progress last one). -/
def completedTrickCards (g : Game) : List Card :=
  (g.hands_played.dropLast.map potCards).flatten

/-- The union asserted by the original claim: hands, deck remainder and
completed-trick slots. -/
def claimedUnion (g : Game) : Multiset Card :=
  msOf g.hands g.deck + ↑(completedTrickCards g)

/-- The card played by the acting seat in the concrete run: the first
card of its sorted hand. -/
def playedCard (g : Game) : Card := (g.hands g.current_player_index).headD blankCard

def cg0 : Game := Game.new 500 fullDeck
def cg1 : Game := (cg0.play id .Start).2
def cg2 : Game := (cg1.play id (.Bet 1)).2
def cg3 : Game := (cg2.play id (.Bet 1)).2
def cg4 : Game := (cg3.play id (.Bet 1)).2
def cg5 : Game := (cg4.play id (.Bet 1)).2
def cg6 : Game := (cg5.play id (.Card (playedCard cg5))).2
def cg7 : Game := (cg6.play id (.Card (playedCard cg6))).2
def cg8 : Game := (cg7.play id (.Card (playedCard cg7))).2

/-- A reachable state one completed trick into the first round. -/
def exampleMidGame : Game := (cg8.play id (.Card (playedCard cg8))).2

/-- Counterexample for C5 as stated: at a concrete reachable state with
one completed trick, the union of hands, deck remainder and
completed-trick cards is not the 52-card deck (the four played cards
sit both in the deck remainder and in the trick slot, so the union has
56 cards with four duplicates). -/
theorem C5_counterexample_trick_slots_double_counted :
    Reachable exampleMidGame ∧ claimedUnion exampleMidGame ≠ fullDeckM := by
  have hid : ∀ l : List Card, (id l).Perm l := fun l => List.Perm.refl l
  have r0 : Reachable cg0 := Reachable.init 500 fullDeck (List.Perm.refl _)
  have r1 : Reachable cg1 := Reachable.step cg0 cg1 id .Start .Start hid r0 (by decide)
  have r2 : Reachable cg2 := Reachable.step cg1 cg2 id (.Bet 1) .Bet hid r1 (by decide)
  have r3 : Reachable cg3 := Reachable.step cg2 cg3 id (.Bet 1) .Bet hid r2 (by decide)
  have r4 : Reachable cg4 := Reachable.step cg3 cg4 id (.Bet 1) .Bet hid r3 (by decide)
  have r5 : Reachable cg5 := Reachable.step cg4 cg5 id (.Bet 1) .BetComplete hid r4 (by decide)
  have r6 : Reachable cg6 :=
    Reachable.step cg5 cg6 id (.Card (playedCard cg5)) .PlayCard hid r5 (by decide)
  have r7 : Reachable cg7 :=
    Reachable.step cg6 cg7 id (.Card (playedCard cg6)) .PlayCard hid r6 (by decide)
  have r8 : Reachable cg8 :=
    Reachable.step cg7 cg8 id (.Card (playedCard cg7)) .PlayCard hid r7 (by decide)
  have r9 : Reachable exampleMidGame :=
    Reachable.step cg8 exampleMidGame id (.Card (playedCard cg8)) .Trick hid r8 (by decide)
  refine ⟨r9, ?_⟩
  intro hEq
  have hcard := congrArg Multiset.card hEq
  rw [fullDeckM_card] at hcard
  revert hcard
  decide

/-! ## Turn-clock update (`src/game_manager.rs`) -/

/-- Embeds `struct TimerConfig` from `src/lib.rs`. -/
structure TimerConfig where
  initial_time_secs : Nat
  increment_secs : Nat
deriving DecidableEq, Repr

/-- Embeds the clock update performed by
`GameManager::make_transition_internal` when a timed non-`Start` move
finds a pending timeout for the acting seat (the cancelled timer yields
`elapsed_ms` and the seat index):
`remaining_ms[idx] = remaining_ms[idx].saturating_sub(elapsed_ms) + increment_ms`,
where `increment_ms` is `increment_secs * 1000` for a human move and 0
for a timeout-induced move.  u64 saturating subtraction is `Nat`
subtraction. -/
def transitionClockUpdate (remaining_ms elapsed_ms increment_secs : Nat)
    (is_timeout : Bool) : Nat :=
  let increment_ms := if is_timeout then 0 else increment_secs * 1000
  remaining_ms - elapsed_ms + increment_ms

/-- Counterexample for C4 as stated: with 1000 ms remaining, 3000 ms
elapsed and a 5 s increment, the code leaves 5000 ms (the debit
saturates at 0 first and the full increment is then credited) while the
claimed formula max(0, remaining + increment − elapsed) gives 3000 ms. -/
theorem C4_counterexample_credit_after_debit :
    ((transitionClockUpdate 1000 3000 5 false : Int)
        ≠ max 0 ((1000 : Int) + 5 * 1000 - 3000)) ∧
    transitionClockUpdate 1000 3000 5 false = 5000 := by decide

/-- C4 (amended): the clock of the acting seat is first debited by the
elapsed time, saturating at 0, and only then credited the increment:
the new remaining time is max(0, remaining − elapsed) + increment·1000
for a human move, and max(0, remaining − elapsed) for a timeout-induced
move (no increment). -/
theorem C4_clock_debit_then_credit (remaining_ms elapsed_ms increment_secs : Nat) :
    ((transitionClockUpdate remaining_ms elapsed_ms increment_secs false : Int)
      = max 0 ((remaining_ms : Int) - elapsed_ms) + increment_secs * 1000) ∧
    ((transitionClockUpdate remaining_ms elapsed_ms increment_secs true : Int)
      = max 0 ((remaining_ms : Int) - elapsed_ms)) := by
  have hmax : ((remaining_ms - elapsed_ms : Nat) : Int)
      = max 0 ((remaining_ms : Int) - elapsed_ms) := by
    rcases le_total elapsed_ms remaining_ms with h | h
    · rw [Nat.cast_sub h, max_eq_right (sub_nonneg.2 (Nat.cast_le.2 h))]
    · rw [Nat.sub_eq_zero_of_le h, Nat.cast_zero,
        max_eq_left (sub_nonpos.2 (Nat.cast_le.2 h))]
  constructor
  · simp only [transitionClockUpdate, Bool.false_eq_true, if_false]
    push_cast
    rw [hmax]
  · simp only [transitionClockUpdate, if_true]
    push_cast
    rw [hmax]
    ring

/-! ## Seek broker (`src/matchmaking.rs`) -/

/-- Embeds `struct PendingSeek` from `src/matchmaking.rs`, without the
event-channel sender (player identifiers are abstracted to naturals). -/
structure PendingSeek where
  player_id : Nat
  max_points : Int
  timer_config : TimerConfig
  name : Option String
deriving DecidableEq, Repr

/-- Placeholder seek used as the `getD` default; never read on an
in-bounds index. -/
def junkSeek : PendingSeek :=
  { player_id := 0, max_points := 0, timer_config := { initial_time_secs := 0, increment_secs := 0 },
    name := none }

/-- Embeds the `queue.iter().enumerate().filter(...)` step of
`Matchmaker::try_match`: the queue positions whose seek matches the
`(max_points, timer_config)` key exactly. -/
def matchingIndices (queue : List PendingSeek) (mp : Int) (tc : TimerConfig) : List Nat :=
  (List.range queue.length).filter
    (fun i => (queue.getD i junkSeek).max_points == mp
      && (queue.getD i junkSeek).timer_config == tc)

/-- Embeds the `for &i in indices.iter().rev() { seeks.push(queue.remove(i)) }`
loop of `try_match`: the indices arrive in descending order; the result
pairs the removed seeks (in removal order) with the remaining queue. -/
def removeDescending : List Nat → List PendingSeek → List PendingSeek × List PendingSeek
  | [], q => ([], q)
  | i :: rest, q =>
    let x := q.getD i junkSeek
    let r := removeDescending rest (q.eraseIdx i)
    (x :: r.1, r.2)

/-- Embeds the extraction phase of `Matchmaker::try_match`: when at
least four seeks match the key, the four oldest are removed from the
queue (back-to-front so the indices stay valid) and re-reversed into
queue order. -/
def tryMatchExtract (queue : List PendingSeek) (mp : Int) (tc : TimerConfig) :
    Option (List PendingSeek × List PendingSeek) :=
  let matching := matchingIndices queue mp tc
  if matching.length < 4 then none
  else
    let r := removeDescending (matching.take 4).reverse queue
    some (r.1.reverse, r.2)

/-- Embeds the queue state after the failure path of `try_match` (table
creation or `Start` failed): each extracted seek is pushed back with
`queue.push(seek)`, i.e. appended at the back of the remaining queue. -/
def tryMatchRequeue (queue : List PendingSeek) (mp : Int) (tc : TimerConfig) :
    List PendingSeek :=
  match tryMatchExtract queue mp tc with
  | none => queue
  | some (seeks, remaining) => remaining ++ seeks

lemma getD_cons_eraseIdx (q : List PendingSeek) (i : Nat) (hi : i < q.length) :
    (q.getD i junkSeek) ::ₘ (↑(q.eraseIdx i) : Multiset PendingSeek) = ↑q := by
  rw [List.getD_eq_getElem?_getD, List.getElem?_eq_getElem hi]
  conv_rhs => rw [← List.take_append_drop i q]
  rw [List.eraseIdx_eq_take_drop_succ, List.drop_eq_getElem_cons hi]
  simp only [← Multiset.coe_add, ← Multiset.cons_coe, Option.getD_some]
  simp only [← Multiset.singleton_add]
  abel

lemma removeDescending_ms : ∀ (l : List Nat) (q : List PendingSeek),
    l.Pairwise (· > ·) → (∀ i ∈ l, i < q.length) →
    (↑(removeDescending l q).1 + ↑(removeDescending l q).2 : Multiset PendingSeek) = ↑q := by
  intro l
  induction l with
  | nil => intro q _ _; simp [removeDescending]
  | cons i rest ih =>
      intro q hpair hbound
      have hi : i < q.length := hbound i (by simp)
      have hlen : (q.eraseIdx i).length = q.length - 1 := by
        rw [List.length_eraseIdx]
        simp [hi]
      have hrec := ih (q.eraseIdx i) (List.Pairwise.of_cons hpair) (by
        intro j hj
        have hji : j < i := List.rel_of_pairwise_cons hpair hj
        omega)
      simp only [removeDescending, Multiset.cons_coe]
      rw [← Multiset.cons_coe, Multiset.cons_add, hrec]
      exact getD_cons_eraseIdx q i hi

lemma matchingIndices_pairwise (queue : List PendingSeek) (mp : Int) (tc : TimerConfig) :
    (matchingIndices queue mp tc).Pairwise (· < ·) :=
  List.Pairwise.filter _ (List.pairwise_lt_range _)

lemma matchingIndices_bound (queue : List PendingSeek) (mp : Int) (tc : TimerConfig) :
    ∀ i ∈ matchingIndices queue mp tc, i < queue.length := by
  intro i hi
  have := List.mem_filter.1 hi
  exact List.mem_range.1 this.1

/-- C9 (amended): when the broker has extracted four matching seeks and
table creation or `Start` fails, all four are put back into the queue,
but at the back (after any seeks that remained queued): no seeker is
dropped — the requeued queue holds exactly the seeks of the original
queue — yet the four do not regain their place at the head. -/
theorem C9_requeue_appends_at_back (queue : List PendingSeek) (mp : Int) (tc : TimerConfig)
    (seeks remaining : List PendingSeek)
    (h : tryMatchExtract queue mp tc = some (seeks, remaining)) :
    tryMatchRequeue queue mp tc = remaining ++ seeks ∧
    (↑(remaining ++ seeks) : Multiset PendingSeek) = ↑queue := by
  refine ⟨by simp [tryMatchRequeue, h], ?_⟩
  unfold tryMatchExtract at h
  dsimp only at h
  split_ifs at h with hlt
  simp only [Option.some.injEq, Prod.mk.injEq] at h
  obtain ⟨hseeks, hrem⟩ := h
  have hpair : ((matchingIndices queue mp tc).take 4).reverse.Pairwise (· > ·) := by
    rw [List.pairwise_reverse]
    exact List.Pairwise.sublist (List.take_sublist 4 _)
      (matchingIndices_pairwise queue mp tc)
  have hbound : ∀ i ∈ ((matchingIndices queue mp tc).take 4).reverse, i < queue.length := by
    intro i hi
    rw [List.mem_reverse] at hi
    exact matchingIndices_bound queue mp tc i (List.mem_of_mem_take hi)
  have hms := removeDescending_ms ((matchingIndices queue mp tc).take 4).reverse queue
    hpair hbound
  rw [show ((remaining ++ seeks : List PendingSeek) : Multiset PendingSeek)
      = ↑remaining + ↑seeks from (Multiset.coe_add _ _).symm]
  rw [← hseeks, ← hrem, Multiset.coe_reverse]
  rw [← hms]
  abel

/-- Five queued seeks with an identical key. -/
def exampleSeekQueue : List PendingSeek :=
  [{ player_id := 1, max_points := 500,
     timer_config := { initial_time_secs := 300, increment_secs := 5 }, name := none },
   { player_id := 2, max_points := 500,
     timer_config := { initial_time_secs := 300, increment_secs := 5 }, name := none },
   { player_id := 3, max_points := 500,
     timer_config := { initial_time_secs := 300, increment_secs := 5 }, name := none },
   { player_id := 4, max_points := 500,
     timer_config := { initial_time_secs := 300, increment_secs := 5 }, name := none },
   { player_id := 5, max_points := 500,
     timer_config := { initial_time_secs := 300, increment_secs := 5 }, name := none }]

/-- Witness for C9 (amended) on a concrete five-seek queue (defined
below): the failure path appends the four extracted seeks behind the
fifth and loses no seeker. -/
theorem C9_requeue_appends_at_back_witness :
    tryMatchRequeue exampleSeekQueue 500 { initial_time_secs := 300, increment_secs := 5 }
      = exampleSeekQueue.drop 4 ++ exampleSeekQueue.take 4 ∧
    (↑(exampleSeekQueue.drop 4 ++ exampleSeekQueue.take 4) : Multiset PendingSeek)
      = ↑exampleSeekQueue :=
  C9_requeue_appends_at_back exampleSeekQueue 500 _
    (exampleSeekQueue.take 4) (exampleSeekQueue.drop 4) (by decide)

/-- Counterexample for C9 as stated: with five matching seeks, the four
oldest are extracted; after a failure they are appended behind the
fifth seek, not put back at the head of the queue. -/
theorem C9_counterexample_requeue_not_at_head :
    tryMatchExtract exampleSeekQueue 500 { initial_time_secs := 300, increment_secs := 5 }
      = some (exampleSeekQueue.take 4, exampleSeekQueue.drop 4) ∧
    tryMatchRequeue exampleSeekQueue 500 { initial_time_secs := 300, increment_secs := 5 }
      ≠ exampleSeekQueue.take 4 ++ exampleSeekQueue.drop 4 := by decide

end Spades




